import Mathlib

/-!
Shallow embedding of the water-monitoring dashboard `src/App.js`.

The file models the contents of `App.js`: the timestamp normalizer
`parseTimestamp`, the derived projections `latestReading`,
`averageReading`, `pumpStatus`, `chartData`, the history-list sort, and
the state transition performed by one completed `fetchData` cycle.

Modelling conventions:
* A JavaScript `Date` time value is an `Option Int` of epoch
  milliseconds: `none` stands for an invalid date (`NaN` time value).
  Timestamps are treated as local wall-clock time (the source does no
  timezone handling), so the model uses calendar millis directly.
* The engine-defined direct string parse performed by `new Date(string)`
  is implementation-defined for non-ISO inputs, so it is a parameter
  `dp : String → Option Int` of every definition that calls
  `parseTimestamp`.
* The regex fallback `(\d{2})\/(\d{2})\/(\d{4})\s(\d{2}):(\d{2}):(\d{2})`
  is modelled concretely by a leftmost scan (the pattern has fixed width,
  so no backtracking is possible).
* `Array.prototype.sort` is modelled by the stable `List.mergeSort` with
  the ECMAScript `SortCompare` semantics: a comparator result of `NaN`
  counts as `+0`.
* JavaScript numbers in `leitura` are modelled as rationals.
-/

namespace App

/-- Reading record as received from the endpoint: the fields `App.js`
reads from each element of the JSON array. -/
structure Reading where
  id : Nat
  leitura : ℚ
  status : String
  bombaLigada : String
  timestamp : Option String
deriving DecidableEq, Repr

/-! ### The regex fallback of `parseTimestamp` -/

/-- Decode one ASCII decimal digit, the `\d` character class. -/
def digitVal (c : Char) : Option Nat :=
  if c.isDigit then some (c.toNat - 48) else none

/-- Match exactly two digits at the head of the character list,
returning their value and the remaining characters. -/
def matchTwoDigits : List Char → Option (Nat × List Char)
  | a :: b :: rest =>
    match digitVal a, digitVal b with
    | some x, some y => some (10 * x + y, rest)
    | _, _ => none
  | _ => none

/-- Match exactly four digits at the head of the character list. -/
def matchFourDigits : List Char → Option (Nat × List Char)
  | a :: b :: c :: d :: rest =>
    match digitVal a, digitVal b, digitVal c, digitVal d with
    | some w, some x, some y, some z =>
      some (1000 * w + 100 * x + 10 * y + z, rest)
    | _, _, _, _ => none
  | _ => none

/-- Match one literal character at the head of the list. -/
def matchLit (c : Char) : List Char → Option (List Char)
  | x :: rest => if x = c then some rest else none
  | _ => none

/-- Characters matched by the JavaScript `\s` class (the common ones;
the source timestamps use a plain space). -/
def isJsSpace (c : Char) : Bool :=
  c = ' ' || c = '\t' || c = '\n' || c = '\r' ||
  c = (Char.ofNat 11) || c = (Char.ofNat 12) || c = (Char.ofNat 160)

/-- Match one `\s` character at the head of the list. -/
def matchSpace : List Char → Option (List Char)
  | x :: rest => if isJsSpace x then some rest else none
  | _ => none

/-- Captured groups of the timestamp pattern: day, month, year, hour,
minute, second, in the order the groups appear. -/
structure TsParts where
  day : Nat
  month : Nat
  year : Nat
  hour : Nat
  minute : Nat
  second : Nat
deriving DecidableEq, Repr

/-- Match the full pattern
`(\d{2})\/(\d{2})\/(\d{4})\s(\d{2}):(\d{2}):(\d{2})` starting exactly at
the head of the character list. -/
def matchPatternAt (cs : List Char) : Option TsParts := do
  let (d, cs) ← matchTwoDigits cs
  let cs ← matchLit '/' cs
  let (mo, cs) ← matchTwoDigits cs
  let cs ← matchLit '/' cs
  let (y, cs) ← matchFourDigits cs
  let cs ← matchSpace cs
  let (h, cs) ← matchTwoDigits cs
  let cs ← matchLit ':' cs
  let (mi, cs) ← matchTwoDigits cs
  let cs ← matchLit ':' cs
  let (s, _) ← matchTwoDigits cs
  pure ⟨d, mo, y, h, mi, s⟩

/-- Unanchored regex search: try the pattern at each position from the
left, as `String.prototype.match` does. -/
def searchPattern : List Char → Option TsParts
  | [] => none
  | c :: rest =>
    match matchPatternAt (c :: rest) with
    | some p => some p
    | none => searchPattern rest

/-! ### Calendar arithmetic for `new Date(y, m, d, h, mi, s)` -/

/-- Days from the civil epoch 1970-01-01 of the proleptic Gregorian date
`(y, m, d)` with `m` in `[1,12]`, floor-division based. -/
def daysFromCivil (y m d : Int) : Int :=
  let y2 := if m ≤ 2 then y - 1 else y
  let era := Int.fdiv y2 400
  let yoe := y2 - era * 400
  let mp := Int.fmod (m + 9) 12
  let doy := Int.fdiv (153 * mp + 2) 5 + d - 1
  let doe := yoe * 365 + Int.fdiv yoe 4 - Int.fdiv yoe 100 + doy
  era * 146097 + doe - 719468

/-- Milliseconds of the civil date-time `(y, m, d, h, mi, s)` with `m`
in `[1,12]`, local wall-clock model. -/
def civilMillis (y m d h mi s : Int) : Int :=
  daysFromCivil y m d * 86400000 + h * 3600000 + mi * 60000 + s * 1000

/-- ECMAScript `TimeClip` bound: time values beyond ±8.64e15 ms are
invalid. -/
def timeClipBound : Nat := 8640000000000000

/-- Model of the JavaScript constructor `new Date(y, mIdx, d, h, mi, s)`
with numeric arguments: two-digit years map to 1900+y, out-of-range
month indices roll over into the year, and the result is clipped to the
representable range (`none` = `NaN` time value). -/
def mkDate (y mIdx d h mi s : Int) : Option Int :=
  let y2 := if 0 ≤ y ∧ y ≤ 99 then y + 1900 else y
  let ym := y2 + Int.fdiv mIdx 12
  let mn := Int.fmod mIdx 12
  let t := civilMillis ym (mn + 1) d h mi s
  if t.natAbs ≤ timeClipBound then some t else none

/-! ### `parseTimestamp` -/

/-- Model of `parseTimestamp` from `App.js` lines 9–19, parameterised by
the engine direct parse `dp` (`new Date(string)`). An absent or empty
(falsy) timestamp is invalid; otherwise the direct parse is attempted
first; on failure the fixed `DD/MM/YYYY HH:MM:SS` pattern is searched
for and fed to the date constructor in day-month-year order; if
everything fails the result is the invalid marker `none`. -/
def parseTimestamp (dp : String → Option Int) : Option String → Option Int
  | none => none
  | some s =>
    if s = "" then none
    else
      match dp s with
      | some t => some t
      | none =>
        match searchPattern s.toList with
        | some p =>
          match mkDate p.year ((p.month : Int) - 1) p.day p.hour p.minute p.second with
          | some t => some t
          | none => none
        | none => none

/-- Normalized instant of a reading. -/
def instant (dp : String → Option Int) (r : Reading) : Option Int :=
  parseTimestamp dp r.timestamp

/-! ### Latest reading -/

/-- Step function of the `reduce` in `latestReading` (`App.js` lines
56–62): an invalid accumulator is replaced by the candidate, an invalid
candidate never replaces a valid accumulator, and otherwise the
candidate wins exactly when its instant is strictly greater. -/
def pickLatest (dp : String → Option Int) (latest current : Reading) : Reading :=
  match instant dp latest with
  | none => current
  | some lt =>
    match instant dp current with
    | none => latest
    | some ct => if lt < ct then current else latest

/-- Model of the `latestReading` projection (`App.js` lines 54–63):
`reduce` without an initial value seeds with the first element and folds
the rest; the empty list yields `null`. -/
def latestReading (dp : String → Option Int) : List Reading → Option Reading
  | [] => none
  | h :: t => some (t.foldl (pickLatest dp) h)

/-! ### Average -/

/-- Model of JavaScript `Number.prototype.toFixed(2)` on a rational:
the integer `n` with `n / 100` closest to the value, ties toward the
larger `n` (hence `⌊q·100 + 1/2⌋`), printed with exactly two
decimals. -/
def toFixed2 (q : ℚ) : String :=
  (if ⌊q * 100 + 1 / 2⌋ < 0 then "-" else "")
    ++ toString ((⌊q * 100 + 1 / 2⌋).natAbs / 100) ++ "."
    ++ (if (⌊q * 100 + 1 / 2⌋).natAbs % 100 < 10 then "0" else "")
    ++ toString ((⌊q * 100 + 1 / 2⌋).natAbs % 100)

/-- Model of the `averageReading` projection (`App.js` lines 66–69):
the "N/A" sentinel on the empty list, otherwise the summed `leitura`
divided by the length, formatted with `toFixed(2)`. -/
def averageReading (l : List Reading) : String :=
  if l = [] then "N/A"
  else toFixed2 ((l.foldl (fun acc r => acc + r.leitura) 0) / l.length)

/-! ### Pump status -/

/-- Model of `pumpStatus` (`App.js` line 72): optional chaining on a
`null` latest reading yields `undefined`, which is not `"Sim"`, so the
empty case falls to `"Inativa"`. -/
def pumpStatus (dp : String → Option Int) (l : List Reading) : String :=
  match latestReading dp l with
  | some r => if r.bombaLigada = "Sim" then "Ativa" else "Inativa"
  | none => "Inativa"

/-! ### Chart data -/

/-- Model of `Array.prototype.slice(-6)`: the last six elements, or the
whole list when it is shorter. -/
def sliceLast6 (l : List Reading) : List Reading :=
  l.drop (l.length - 6)

/-- Chart payload: one label and one numeric value per windowed
reading. -/
structure ChartData where
  labels : List String
  data : List ℚ
deriving DecidableEq, Repr

/-- Model of `chartData` (`App.js` lines 75–85), parameterised by the
locale-dependent `toLocaleTimeString` rendering `timeLabel`. -/
def chartData (dp : String → Option Int) (timeLabel : Option Int → String)
    (l : List Reading) : ChartData :=
  { labels := (sliceLast6 l).map (fun r => timeLabel (instant dp r))
    data := (sliceLast6 l).map (fun r => r.leitura) }

/-! ### History list sort -/

/-- The comparator of the history `FlatList` (`App.js` lines 135–137):
`parseTimestamp(b) - parseTimestamp(a)` on `Date` values coerced to
numbers. When either side is invalid the subtraction is `NaN`, which
ECMAScript `SortCompare` turns into `+0`. -/
def jsCompare (dp : String → Option Int) (a b : Reading) : Int :=
  match instant dp b, instant dp a with
  | some tb, some ta => tb - ta
  | _, _ => 0

/-- Model of the history-list ordering: `Array.prototype.sort` with the
subtraction comparator, modelled by the stable merge sort required by
ECMAScript (an element precedes another when the comparator is ≤ 0). -/
def historySorted (dp : String → Option Int) (l : List Reading) : List Reading :=
  l.mergeSort (fun a b => jsCompare dp a b ≤ 0)

/-! ### Fetch cycle -/

/-- UI state touched by `fetchData` (`App.js` lines 22–26);
`lastRefresh` is an abstract clock value. -/
structure AppState where
  leituras : List Reading
  loading : Bool
  initialLoading : Bool
  error : Option String
  lastRefresh : Int
deriving DecidableEq, Repr

/-- Parsed JSON body of a successful response: either an array of
readings or some non-array value. -/
inductive JsonBody where
  | array (l : List Reading)
  | nonArray
deriving DecidableEq, Repr

/-- Outcome of one fetch attempt. `failure` covers a network error, a
non-ok status (the thrown `"Falha na conexão"`), and an unparseable
body — all reach the same `catch`. -/
inductive FetchOutcome where
  | failure
  | success (body : JsonBody)
deriving DecidableEq, Repr

/-- The error message set by the `catch` handler. -/
def fetchErrorMsg : String := "Falha ao carregar os dados."

/-- State after one completed `fetchData` cycle (`App.js` lines 28–45)
that observed outcome `o` at clock time `now`: the success handler
stores the array (or `[]` for a non-array body), refreshes the clock and
clears the error; the catch handler only sets the error; the `finally`
clause clears both loading flags. -/
def fetchUpdate (now : Int) (st : AppState) (o : FetchOutcome) : AppState :=
  match o with
  | .success body =>
    { st with
      leituras := match body with | .array l => l | .nonArray => []
      lastRefresh := now
      error := none
      loading := false
      initialLoading := false }
  | .failure =>
    { st with
      error := some fetchErrorMsg
      loading := false
      initialLoading := false }

/-! ### Totality of `parseTimestamp` over JavaScript values -/

/-- JavaScript values a `timestamp` field could hold in the model:
absent (`undefined`), `null`, a string, or a number. -/
inductive JsVal where
  | undef
  | jsNull
  | str (s : String)
  | num (n : Int)
deriving DecidableEq, Repr

/-- JavaScript falsiness of the modelled values (`!timestamp`). -/
def jsFalsy : JsVal → Bool
  | .undef => true
  | .jsNull => true
  | .str s => s = ""
  | .num n => n = 0

/-- Time value of `new Date(timestamp)` for each modelled value: a
string goes through the engine parse `dp`, a number is its own time
value when within range, `undefined` gives `NaN`, and `null` coerces to
`0`. -/
def jsDirectDate (dp : String → Option Int) : JsVal → Option Int
  | .undef => none
  | .jsNull => some 0
  | .str s => dp s
  | .num n => if n.natAbs ≤ timeClipBound then some n else none

/-- The `timestamp.match(...)` step: defined on strings, a thrown
`TypeError` on any other receiver. -/
def jsMatchStep : JsVal → Except String (Option TsParts)
  | .str s => .ok (searchPattern s.toList)
  | _ => .error "TypeError: timestamp.match is not a function"

/-- Model of `parseTimestamp` over JavaScript values, keeping the throw
behaviour of `.match` explicit: `Except.error` is an uncaught
exception, `Except.ok` carries the returned `Date` time value. -/
def parseTimestampJs (dp : String → Option Int) (v : JsVal) :
    Except String (Option Int) :=
  if jsFalsy v then .ok none
  else
    match jsDirectDate dp v with
    | some t => .ok (some t)
    | none => do
      let m ← jsMatchStep v
      match m with
      | some p =>
        pure (mkDate p.year ((p.month : Int) - 1) p.day p.hour p.minute p.second)
      | none => pure none

/-! ### Auxiliary values for concrete instantiations -/

/-- Valid instant of a reading as a plain integer (default 0; only used
under a validity hypothesis). -/
def instVal (dp : String → Option Int) (r : Reading) : Int :=
  (instant dp r).getD 0

/-- Ordering on normalized instants in which the invalid marker is the
numerically smallest value, as the spec describes the history order. -/
def keyLe (a b : Option Int) : Bool :=
  match a, b with
  | none, _ => true
  | some _, none => false
  | some x, some y => x ≤ y

/-- Engine direct parse that accepts nothing (every string is a direct
`NaN`). -/
def dpNone : String → Option Int := fun _ => none

/-- Engine direct parse with a two-string lookup table, for concrete
examples. -/
def dpTab : String → Option Int :=
  fun s => if s = "t1" then some 1 else if s = "t2" then some 2 else none

/-- Sample reading with an unparseable timestamp and `leitura` 2. -/
def rBad1 : Reading := ⟨1, 2, "ok", "Sim", some "bad"⟩

/-- Second sample reading with an unparseable timestamp and `leitura` 4. -/
def rBad2 : Reading := ⟨2, 4, "ok", "Nao", some "worse"⟩

/-- Sample reading whose timestamp direct-parses to instant 1 under
`dpTab`. -/
def rT1 : Reading := ⟨1, 1, "ok", "Sim", some "t1"⟩

/-- Sample reading whose timestamp direct-parses to instant 2 under
`dpTab`. -/
def rT2 : Reading := ⟨2, 2, "ok", "Sim", some "t2"⟩

/-- Sample reading with an unparseable timestamp under `dpTab`. -/
def rTBad : Reading := ⟨3, 3, "ok", "Sim", some "bad"⟩

/-! ## Helper lemmas -/

theorem foldl_pickLatest_all_invalid (dp : String → Option Int) :
    ∀ (t : List Reading) (a : Reading), instant dp a = none →
      (∀ r ∈ t, instant dp r = none) →
      some (t.foldl (pickLatest dp) a) = (a :: t).getLast?
  | [], a, _, _ => rfl
  | b :: t, a, ha, hall => by
    have hb : instant dp b = none := hall b (by simp)
    have hstep : pickLatest dp a b = b := by
      unfold pickLatest
      rw [ha]
    rw [List.foldl_cons, hstep,
      foldl_pickLatest_all_invalid dp t b hb (fun r hr => hall r (by simp [hr]))]
    simp [List.getLast?_cons_cons]

theorem pickLatest_valid (dp : String → Option Int) (a b : Reading) (ta tb : Int)
    (ha : instant dp a = some ta) (hb : instant dp b = some tb) :
    pickLatest dp a b = if ta < tb then b else a := by
  unfold pickLatest
  rw [ha, hb]

theorem instVal_eq (dp : String → Option Int) (r : Reading) (t : Int)
    (h : instant dp r = some t) : instVal dp r = t := by
  simp [instVal, h]

theorem foldl_pickLatest_mem_max (dp : String → Option Int) :
    ∀ (t : List Reading) (a : Reading), (instant dp a).isSome →
      (∀ r ∈ t, (instant dp r).isSome) →
      (t.foldl (pickLatest dp) a ∈ a :: t ∧
        ∀ x ∈ a :: t, instVal dp x ≤ instVal dp (t.foldl (pickLatest dp) a))
  | [], a, _, _ => by simp
  | b :: t, a, ha, hall => by
    obtain ⟨ta, hta⟩ := Option.isSome_iff_exists.mp ha
    obtain ⟨tb, htb⟩ := Option.isSome_iff_exists.mp
      (hall b (by simp))
    have hstep := pickLatest_valid dp a b ta tb hta htb
    have hmem : pickLatest dp a b = a ∨ pickLatest dp a b = b := by
      rw [hstep]; split <;> simp
    have hsome : (instant dp (pickLatest dp a b)).isSome := by
      rcases hmem with h | h <;> rw [h] <;> simp [hta, htb]
    have hga : instVal dp a ≤ instVal dp (pickLatest dp a b) := by
      rw [hstep]
      split
      · rw [instVal_eq dp a ta hta, instVal_eq dp b tb htb]; omega
      · exact le_refl _
    have hgb : instVal dp b ≤ instVal dp (pickLatest dp a b) := by
      rw [hstep]
      split
      · exact le_refl _
      · rw [instVal_eq dp b tb htb, instVal_eq dp a ta hta]; omega
    obtain ⟨ihmem, ihmax⟩ := foldl_pickLatest_mem_max dp t (pickLatest dp a b)
      hsome (fun r hr => hall r (by simp [hr]))
    refine ⟨?_, ?_⟩
    · rw [List.foldl_cons]
      rcases List.mem_cons.mp ihmem with h | h
      · rcases hmem with h2 | h2 <;> rw [h, h2] <;> simp
      · simp [h]
    · intro x hx
      rw [List.foldl_cons]
      have hacc : instVal dp (pickLatest dp a b) ≤
          instVal dp (t.foldl (pickLatest dp) (pickLatest dp a b)) :=
        ihmax _ (by simp)
      rcases List.mem_cons.mp hx with h | h
      · rw [h]; omega
      rcases List.mem_cons.mp h with h2 | h2
      · rw [h2]; omega
      · exact ihmax x (by simp [h2])

theorem instants_injOn (dp : String → Option Int) (l : List Reading)
    (hd : l.Pairwise fun a b => instant dp a ≠ instant dp b)
    (r1 r2 : Reading) (h1 : r1 ∈ l) (h2 : r2 ∈ l)
    (heq : instant dp r1 = instant dp r2) : r1 = r2 := by
  by_contra hne
  exact hd.forall (fun a b h => (h ∘ Eq.symm)) h1 h2 hne heq

theorem foldl_add_leitura :
    ∀ (l : List Reading) (c : ℚ),
      l.foldl (fun acc r => acc + r.leitura) c = c + (l.map Reading.leitura).sum
  | [], c => by simp
  | r :: t, c => by
    rw [List.foldl_cons, foldl_add_leitura t (c + r.leitura)]
    simp [add_assoc]

theorem option_match_id (o : Option Int) :
    (match o with | some t => some t | none => none) = o := by
  cases o <;> rfl

theorem averageReading_eq_mean (l : List Reading) (hl : l ≠ []) :
    averageReading l = toFixed2 ((l.map Reading.leitura).sum / (l.length : ℚ)) := by
  unfold averageReading
  rw [if_neg hl, foldl_add_leitura l 0, zero_add]

theorem latestReading_max (dp : String → Option Int) (l : List Reading)
    (hne : l ≠ []) (hv : ∀ r ∈ l, (instant dp r).isSome) :
    ∃ r, latestReading dp l = some r ∧ r ∈ l ∧
      ∀ x ∈ l, instVal dp x ≤ instVal dp r := by
  obtain ⟨a, t, rfl⟩ := List.exists_cons_of_ne_nil hne
  obtain ⟨hm, hmax⟩ := foldl_pickLatest_mem_max dp t a (hv a (by simp))
    (fun r hr => hv r (by simp [hr]))
  exact ⟨_, rfl, hm, hmax⟩

/-! ## Claims -/

/-- C1 (counterexample): on the two-element list `[rBad1, rBad2]`, both
of whose normalized instants are invalid, `latestReading` returns the
second (last) element, not the first as the claim states. -/
theorem latestReading_all_invalid_cex :
    instant dpNone rBad1 = none ∧ instant dpNone rBad2 = none ∧
    latestReading dpNone [rBad1, rBad2] = some rBad2 ∧ rBad2 ≠ rBad1 := by
  decide

/-- C1 (amended): for every non-empty list of readings in which every
reading's normalized instant is invalid, the latest-reading projection
returns the last element of the input list: an invalid accumulator is
always replaced by the next candidate. -/
theorem latestReading_all_invalid (dp : String → Option Int) (l : List Reading)
    (hne : l ≠ []) (hall : ∀ r ∈ l, instant dp r = none) :
    latestReading dp l = l.getLast? := by
  obtain ⟨a, t, rfl⟩ := List.exists_cons_of_ne_nil hne
  unfold latestReading
  exact foldl_pickLatest_all_invalid dp t a (hall a (by simp))
    (fun r hr => hall r (by simp [hr]))

/-- C1 (witness): the amended claim evaluated on the concrete
all-invalid list `[rBad1, rBad2]`. -/
theorem latestReading_all_invalid_witness :
    ([rBad1, rBad2] : List Reading) ≠ [] ∧
    (∀ r ∈ [rBad1, rBad2], instant dpNone r = none) ∧
    latestReading dpNone [rBad1, rBad2] = [rBad1, rBad2].getLast? :=
  ⟨by decide, by decide,
    latestReading_all_invalid dpNone [rBad1, rBad2] (by decide) (by decide)⟩

/-- C2: on lists whose normalized instants are all valid and pairwise
distinct, the latest-reading projection returns the reading with the
greatest instant and is invariant under permutation of the input; the
step function replaces the accumulator only on a strictly greater
instant, and an invalid candidate never replaces a valid
accumulator. -/
theorem latestReading_perm_max (dp : String → Option Int) (l1 l2 : List Reading)
    (hperm : l1.Perm l2) (hne : l1 ≠ [])
    (hv : ∀ r ∈ l1, (instant dp r).isSome)
    (hd : l1.Pairwise fun a b => instant dp a ≠ instant dp b) :
    (∃ r, latestReading dp l1 = some r ∧ r ∈ l1 ∧
      ∀ x ∈ l1, instVal dp x ≤ instVal dp r)
    ∧ latestReading dp l1 = latestReading dp l2
    ∧ (∀ a b, (instant dp a).isSome → instant dp b = none → pickLatest dp a b = a)
    ∧ (∀ a b ta tb, instant dp a = some ta → instant dp b = some tb → tb ≤ ta →
        pickLatest dp a b = a) := by
  have hne2 : l2 ≠ [] := by
    intro h
    subst h
    exact hne hperm.eq_nil
  have hv2 : ∀ r ∈ l2, (instant dp r).isSome := fun r hr => hv r (hperm.mem_iff.mpr hr)
  obtain ⟨r1, he1, hm1, hx1⟩ := latestReading_max dp l1 hne hv
  obtain ⟨r2, he2, hm2, hx2⟩ := latestReading_max dp l2 hne2 hv2
  have hr2in1 : r2 ∈ l1 := hperm.mem_iff.mpr hm2
  have hr1in2 : r1 ∈ l2 := hperm.mem_iff.mp hm1
  have hval : instVal dp r1 = instVal dp r2 :=
    le_antisymm (hx2 r1 hr1in2) (hx1 r2 hr2in1)
  have hinst : instant dp r1 = instant dp r2 := by
    obtain ⟨t1, ht1⟩ := Option.isSome_iff_exists.mp (hv r1 hm1)
    obtain ⟨t2, ht2⟩ := Option.isSome_iff_exists.mp (hv r2 hr2in1)
    rw [instVal_eq dp r1 t1 ht1, instVal_eq dp r2 t2 ht2] at hval
    rw [ht1, ht2, hval]
  have heq : r1 = r2 := instants_injOn dp l1 hd r1 r2 hm1 hr2in1 hinst
  refine ⟨⟨r1, he1, hm1, hx1⟩, by rw [he1, he2, heq], ?_, ?_⟩
  · intro a b hsa hnb
    obtain ⟨ta, hta⟩ := Option.isSome_iff_exists.mp hsa
    unfold pickLatest
    rw [hta, hnb]
  · intro a b ta tb hta htb hle
    rw [pickLatest_valid dp a b ta tb hta htb, if_neg (by omega)]

/-- C2 (witness): permutation invariance evaluated on the two-element
valid list `[rT1, rT2]` and its reversal. -/
theorem latestReading_perm_max_witness :
    ([rT1, rT2] : List Reading).Perm [rT2, rT1] ∧
    latestReading dpTab [rT1, rT2] = latestReading dpTab [rT2, rT1] :=
  ⟨by decide, (latestReading_perm_max dpTab [rT1, rT2] [rT2, rT1]
      (by decide) (by decide) (by decide) (by decide)).2.1⟩

/-- C3 (counterexample): on `[rTBad, rT2, rT1]` — an invalid-timestamp
reading followed by two valid ones in increasing order — the stable
sort leaves the list unchanged, because the invalid reading compares
equal (`NaN` → `+0`) to both neighbours; the invalid reading appears
first rather than last, and the output violates the claimed
non-increasing order with invalid treated as numerically smallest. -/
theorem historySorted_cex :
    historySorted dpTab [rTBad, rT2, rT1] = [rTBad, rT2, rT1]
    ∧ instant dpTab rTBad = none
    ∧ instant dpTab rT2 = some 2
    ∧ ¬ (historySorted dpTab [rTBad, rT2, rT1]).Chain'
        (fun a b => keyLe (instant dpTab b) (instant dpTab a) = true) := by
  have h1 : instant dpTab rT1 = some 1 := by decide
  have h2 : instant dpTab rT2 = some 2 := by decide
  have hb : instant dpTab rTBad = none := by decide
  have hsort : historySorted dpTab [rTBad, rT2, rT1] = [rTBad, rT2, rT1] := by
    unfold historySorted
    simp [List.mergeSort, List.splitInTwo, List.splitAt, List.splitAt.go, List.merge,
      jsCompare, h1, h2, hb]
  refine ⟨hsort, hb, h2, ?_⟩
  rw [hsort]
  simp only [List.chain'_cons, List.chain'_singleton, and_true]
  decide

/-- C3 (amended): when every normalized instant in the input is valid,
the sorted history list is non-increasing by instant on adjacent
entries, and sorting permutes the input; a reading with an invalid
instant yields comparator value 0 (the `NaN` subtraction counts as
`+0`) against every other reading, so the sort does not order such
readings by instant and they do not necessarily appear last. -/
theorem historySorted_nonincreasing (dp : String → Option Int) (l : List Reading)
    (hv : ∀ r ∈ l, (instant dp r).isSome) :
    (historySorted dp l).Chain' (fun a b => instVal dp b ≤ instVal dp a)
    ∧ (historySorted dp l).Perm l
    ∧ (∀ a b, instant dp a = none → jsCompare dp a b = 0 ∧ jsCompare dp b a = 0) := by
  refine ⟨?_, List.mergeSort_perm l _, ?_⟩
  · have hcong : ∀ a ∈ l, ∀ b ∈ l,
        (fun a b : Reading => decide (jsCompare dp a b ≤ 0)) a b =
          (fun x y : Int => decide (y ≤ x)) (instVal dp a) (instVal dp b) := by
      intro a ha b hb
      obtain ⟨ta, hta⟩ := Option.isSome_iff_exists.mp (hv a ha)
      obtain ⟨tb, htb⟩ := Option.isSome_iff_exists.mp (hv b hb)
      have hc : jsCompare dp a b = tb - ta := by
        unfold jsCompare
        rw [hta, htb]
      simp only [hc, instVal_eq dp a ta hta, instVal_eq dp b tb htb,
        decide_eq_decide]
      omega
    have hsorted : ((l.map (instVal dp)).mergeSort
        (fun x y : Int => decide (y ≤ x))).Pairwise
          (fun x y : Int => decide (y ≤ x) = true) :=
      List.sorted_mergeSort
        (fun a b c hab hbc => by
          simp only [decide_eq_true_eq] at hab hbc ⊢
          omega)
        (fun a b => by
          simp only [Bool.or_eq_true, decide_eq_true_eq]
          omega)
        (l.map (instVal dp))
    rw [← List.map_mergeSort hcong, List.pairwise_map] at hsorted
    exact List.Pairwise.chain'
      (hsorted.imp (fun h => of_decide_eq_true h))
  · intro a b ha
    constructor <;> cases hb : instant dp b <;> simp [jsCompare, ha, hb]

/-- C3 (witness): the amended non-increasing property evaluated on the
all-valid list `[rT1, rT2]`. -/
theorem historySorted_nonincreasing_witness :
    (∀ r ∈ [rT1, rT2], (instant dpTab r).isSome) ∧
    (historySorted dpTab [rT1, rT2]).Chain'
      (fun a b => instVal dpTab b ≤ instVal dpTab a) :=
  ⟨by decide, (historySorted_nonincreasing dpTab [rT1, rT2] (by decide)).1⟩

/-- C4: the average projection returns the `"N/A"` sentinel for the
empty reading list; for every non-empty list it returns the arithmetic
mean of the `leitura` fields rendered with two decimal places; and for
the two readings with `leitura` 2 and 4 it returns `"3.00"`. -/
theorem averageReading_spec :
    averageReading [] = "N/A"
    ∧ (∀ l : List Reading, l ≠ [] →
        averageReading l = toFixed2 ((l.map Reading.leitura).sum / (l.length : ℚ)))
    ∧ averageReading [rBad1, rBad2] = "3.00" := by
  refine ⟨rfl, fun l hl => averageReading_eq_mean l hl, ?_⟩
  rw [averageReading_eq_mean [rBad1, rBad2] (by decide)]
  have h0 : ((([rBad1, rBad2] : List Reading).map Reading.leitura).sum /
      ((([rBad1, rBad2] : List Reading).length : Nat) : ℚ)) = 3 := by
    norm_num [rBad1, rBad2]
  rw [h0]
  have h3 : (⌊(3 : ℚ) * 100 + 1 / 2⌋ : Int) = 300 := by norm_num
  unfold toFixed2
  rw [h3]
  decide

/-- C4 (witness): the general mean equation evaluated on the singleton
list `[rBad1]`. -/
theorem averageReading_spec_witness :
    ([rBad1] : List Reading) ≠ [] ∧
    averageReading [rBad1] =
      toFixed2 (([rBad1].map Reading.leitura).sum / (([rBad1] : List Reading).length : ℚ)) :=
  ⟨by decide, averageReading_spec.2.1 [rBad1] (by decide)⟩

/-- C5: for every input list, the chart window has exactly
`min 6 length` entries — hence at most 6 — and those entries are the
trailing readings of the input in arrival order, each contributing a
time label and its numeric `leitura` value. -/
theorem chartData_spec (dp : String → Option Int) (f : Option Int → String)
    (l : List Reading) :
    (chartData dp f l).data.length = min 6 l.length
    ∧ (chartData dp f l).labels.length = min 6 l.length
    ∧ (chartData dp f l).data.length ≤ 6
    ∧ (chartData dp f l).data = (l.drop (l.length - 6)).map (fun r => r.leitura)
    ∧ (chartData dp f l).labels = (l.drop (l.length - 6)).map (fun r => f (instant dp r)) := by
  refine ⟨?_, ?_, ?_, rfl, rfl⟩ <;>
    simp only [chartData, sliceLast6, List.length_map, List.length_drop] <;> omega

/-- C7: a successful fetch whose parsed body is not an array stores the
empty reading list and clears the error flag; the failure path (network
error, non-ok status, or unparseable body all reach the same catch)
sets the "Falha ao carregar os dados." error; and every successful
attempt clears the error. -/
theorem fetchUpdate_spec (now : Int) (st : AppState) :
    (fetchUpdate now st (.success .nonArray)).leituras = []
    ∧ (fetchUpdate now st (.success .nonArray)).error = none
    ∧ (fetchUpdate now st .failure).error = some fetchErrorMsg
    ∧ (∀ body, (fetchUpdate now st (.success body)).error = none)
    ∧ (∀ l, (fetchUpdate now st (.success (.array l))).leituras = l) :=
  ⟨rfl, rfl, rfl, fun _ => rfl, fun _ => rfl⟩

/-- C8: with an empty reading list the pump-status projection falls
through to `"Inativa"` (there is no separate "N/A" sentinel), and it
yields `"Ativa"` exactly when a latest reading exists whose
`bombaLigada` field equals `"Sim"`. -/
theorem pumpStatus_spec (dp : String → Option Int) :
    pumpStatus dp [] = "Inativa"
    ∧ ∀ l : List Reading,
        (pumpStatus dp l = "Ativa" ↔
          ∃ r, latestReading dp l = some r ∧ r.bombaLigada = "Sim") := by
  refine ⟨rfl, ?_⟩
  intro l
  unfold pumpStatus
  cases h : latestReading dp l with
  | none => simp
  | some r =>
    by_cases hb : r.bombaLigada = "Sim"
    · simp [hb]
    · simp only [if_neg hb]
      constructor
      · intro hcontra; exact absurd hcontra (by decide)
      · rintro ⟨r2, hr2, hsim⟩
        exact absurd (Option.some_injective _ hr2 ▸ hsim) hb

/-- C6: timestamp normalization returns the invalid marker for an
absent input, yields the direct-parse result whenever the direct parse
succeeds, falls back to the `DD/MM/YYYY HH:MM:SS` pattern interpreted
in day-month-year order when the direct parse fails, and returns the
invalid marker when both fail; concretely `"25/12/2024 14:30:00"`
normalizes to December 25, 2024, 14:30:00 local time whenever the
direct parse rejects it, and `"not-a-date"` normalizes to invalid. -/
theorem parseTimestamp_spec :
    (∀ dp : String → Option Int, parseTimestamp dp none = none)
    ∧ (∀ (dp : String → Option Int) (s : String) (t : Int), s ≠ "" → dp s = some t →
        parseTimestamp dp (some s) = some t)
    ∧ (∀ (dp : String → Option Int) (s : String) (p : TsParts), s ≠ "" → dp s = none →
        searchPattern s.toList = some p →
        parseTimestamp dp (some s) =
          mkDate p.year ((p.month : Int) - 1) p.day p.hour p.minute p.second)
    ∧ (∀ (dp : String → Option Int) (s : String), s ≠ "" → dp s = none →
        searchPattern s.toList = none → parseTimestamp dp (some s) = none)
    ∧ (∀ dp : String → Option Int, dp "25/12/2024 14:30:00" = none →
        parseTimestamp dp (some "25/12/2024 14:30:00") =
          some (civilMillis 2024 12 25 14 30 0))
    ∧ (∀ dp : String → Option Int, dp "not-a-date" = none →
        parseTimestamp dp (some "not-a-date") = none) := by
  refine ⟨fun dp => rfl, ?_, ?_, ?_, ?_, ?_⟩
  · intro dp s t hs hdp
    simp only [parseTimestamp]
    rw [if_neg hs, hdp]
  · intro dp s p hs hdp hsp
    simp only [parseTimestamp]
    rw [if_neg hs, hdp, hsp]
    exact option_match_id _
  · intro dp s hs hdp hsp
    simp only [parseTimestamp]
    rw [if_neg hs, hdp, hsp]
  · intro dp hdp
    simp only [parseTimestamp]
    rw [if_neg (show ¬("25/12/2024 14:30:00" = "") by decide), hdp]
    decide
  · intro dp hdp
    simp only [parseTimestamp]
    rw [if_neg (show ¬("not-a-date" = "") by decide), hdp]
    decide

/-- C6 (witness): both concrete normalizations under the direct parse
that rejects every string. -/
theorem parseTimestamp_spec_witness :
    dpNone "25/12/2024 14:30:00" = none ∧
    parseTimestamp dpNone (some "25/12/2024 14:30:00") =
      some (civilMillis 2024 12 25 14 30 0) :=
  ⟨rfl, parseTimestamp_spec.2.2.2.2.1 dpNone rfl⟩

/-- C10: over inputs that are absent (`undefined` or `null`) or
strings, the JavaScript-value model of `parseTimestamp` is total: it
always returns a `Date` time value (valid instant or invalid marker)
and never reaches a thrown `TypeError`; on strings it agrees with the
pure normalizer. -/
theorem parseTimestampJs_total (dp : String → Option Int) (v : JsVal)
    (h : v = JsVal.undef ∨ v = JsVal.jsNull ∨ ∃ s, v = JsVal.str s) :
    (∃ r, parseTimestampJs dp v = Except.ok r)
    ∧ (∀ s : String,
        parseTimestampJs dp (JsVal.str s) = Except.ok (parseTimestamp dp (some s))) := by
  have hstr : ∀ s : String,
      parseTimestampJs dp (JsVal.str s) = Except.ok (parseTimestamp dp (some s)) := by
    intro s
    by_cases hs : s = ""
    · subst hs; rfl
    · unfold parseTimestampJs
      simp only [jsFalsy, decide_eq_true_eq, parseTimestamp, jsDirectDate, jsMatchStep]
      rw [if_neg hs, if_neg hs]
      cases hdp : dp s with
      | some t => rfl
      | none =>
        cases hsp : searchPattern s.toList with
        | none => rfl
        | some p =>
          show Except.ok (mkDate _ _ _ _ _ _) = Except.ok _
          rw [option_match_id]
  refine ⟨?_, hstr⟩
  rcases h with rfl | rfl | ⟨s, rfl⟩
  · exact ⟨none, rfl⟩
  · exact ⟨none, rfl⟩
  · exact ⟨parseTimestamp dp (some s), hstr s⟩

/-- C10 (witness): totality evaluated at a concrete unparseable
string. -/
theorem parseTimestampJs_total_witness :
    ∃ r, parseTimestampJs dpNone (JsVal.str "abc") = Except.ok r :=
  (parseTimestampJs_total dpNone (JsVal.str "abc") (Or.inr (Or.inr ⟨"abc", rfl⟩))).1

/-- C9: on a failed poll cycle the readings list and the last-refresh
clock are left unchanged, while the error message is set and both
loading flags end the cycle cleared. -/
theorem fetchUpdate_failure_spec (now : Int) (st : AppState) :
    (fetchUpdate now st .failure).leituras = st.leituras
    ∧ (fetchUpdate now st .failure).lastRefresh = st.lastRefresh
    ∧ (fetchUpdate now st .failure).error = some fetchErrorMsg
    ∧ (fetchUpdate now st .failure).loading = false
    ∧ (fetchUpdate now st .failure).initialLoading = false :=
  ⟨rfl, rfl, rfl, rfl, rfl⟩

end App
